import Mathlib

/-!
Model of the xhebrew background translation worker: a two-tier translation
cache (fast in-process tier plus a durable tier), request coalescing and
batching, debounced persistence, and the two provider-response parsers.

Embedding conventions:
- JS timestamps (`Date.now()`) are `Int`; JS string truthiness is `≠ ""`;
  JS object/Map key-value state is an association list in insertion order
  (`aset` updates in place, appending new keys at the end, matching both
  `Map.set` and object property assignment for non-integer string keys).
- Promises stored in the fast tier are always already-resolved strings in
  this worker, so the fast tier is a map to `String`.
- Provider JSON payloads are modelled by `JVal`; a JS exception thrown
  while parsing is `Option.none`, which the worker's surrounding
  `try/catch` turns into the empty result list.
-/

/-- Association-list lookup (JS `Map.get` / object property read). -/
def alookup {α : Type} : List (String × α) → String → Option α
  | [], _ => none
  | (k, v) :: rest, key => if k = key then some v else alookup rest key

/-- Association-list update (JS `Map.set` / object property assignment):
replaces in place when the key exists, else appends. -/
def aset {α : Type} : List (String × α) → String → α → List (String × α)
  | [], key, v => [(key, v)]
  | (k, w) :: rest, key, v =>
    if k = key then (key, v) :: rest else (k, w) :: aset rest key v

/-- A durable-tier cache entry `{ v: string, t: timestamp }`. -/
structure Entry where
  v : String
  t : Int
deriving DecidableEq

/-- The composite cache key built by `doTranslate`:
`modePrefix + text + '||' + target` with the mode prefix
`'cloud|'` or `'public|'`. -/
def cacheKey (useCloud : Bool) (text target : String) : String :=
  (if useCloud then "cloud|" else "public|") ++ text ++ "||" ++ target

/-- The durable-tier hit test of `doTranslate` and `flushPendingRequests`:
`_persistentCache[key] && _persistentCache[key].v` (a present entry with a
truthy, i.e. non-empty, value). -/
def persistHit (persist : List (String × Entry)) (key : String) : Option String :=
  match alookup persist key with
  | some e => if e.v = "" then none else some e.v
  | none => none

/-- Result of the cache-check phase of `doTranslate`. `miss` means the
request is queued for batched translation (a fresh outbound call path). -/
inductive LookupResult
  | emptyInput
  | hitFast (v : String)
  | hitPersist (v : String)
  | miss
deriving DecidableEq

/-- The cache-check phase of `doTranslate(text, target)` (lines before the
batching queue), returning the classification and the fast tier after the
durable-tier promotion that a persistent hit performs. -/
def doTranslateStep (useCloud : Bool) (fast : List (String × String))
    (persist : List (String × Entry)) (text target : String) :
    LookupResult × List (String × String) :=
  if text = "" ∨ target = "" then (.emptyInput, fast)
  else
    let key := cacheKey useCloud text target
    match alookup fast key with
    | some v => (.hitFast v, fast)
    | none =>
      match persistHit persist key with
      | some v => (.hitPersist v, aset fast key v)
      | none => (.miss, fast)

/-- TTL in milliseconds: `CACHE_TTL_DAYS * 24 * 60 * 60 * 1000`. -/
def ttlMs (ttl : Int) : Int := ttl * (24 * 60 * 60 * 1000)

/-- The spec's expiry formula: expired iff
`ttlDays > 0 AND (now - entry.timestamp) > ttlDays*86400000`. -/
def specExpired (e : Entry) (ttl now : Int) : Bool :=
  decide (ttl > 0) && decide (now - e.t > ttlMs ttl)

/-- A raw durable-store value before load normalization: a legacy plain
string, an object `{v, t}` (`t` possibly absent), or a falsy/malformed
value that the loader skips. -/
inductive RawEntry
  | rstr (s : String)
  | robj (v : String) (t : Option Int)
  | rnull
deriving DecidableEq

/-- Timestamp normalization on load: `ts = entry.t || now`
(an absent or JS-falsy timestamp is treated as "just now"). -/
def normTs (now : Int) (t : Option Int) : Int :=
  match t with
  | some x => if x = 0 then now else x
  | none => now

/-- Per-entry load logic of `loadSettingsAndCache`: skip falsy and
malformed entries, normalize the timestamp, and drop expired entries when
the TTL is enabled. -/
def loadEntry (now ttl : Int) (e : RawEntry) : Option Entry :=
  match e with
  | .rnull => none
  | .rstr s =>
    if s = "" then none
    else if ttl > 0 ∧ now - now > ttlMs ttl then none
    else some ⟨s, now⟩
  | .robj v t =>
    if v = "" then none
    else
      let ts := normTs now t
      if ttl > 0 ∧ now - ts > ttlMs ttl then none
      else some ⟨v, ts⟩

/-- Whether a raw entry passes the loader's well-formedness checks
(ignoring expiry): a truthy value with a usable shape. -/
def rawKeepable : RawEntry → Bool
  | .rnull => false
  | .rstr s => decide (s ≠ "")
  | .robj v _ => decide (v ≠ "")

/-- The durable tier rebuilt by `loadSettingsAndCache` from the raw
`translationCache` blob. -/
def loadCache (now ttl : Int) (raw : List (String × RawEntry)) :
    List (String × Entry) :=
  raw.filterMap (fun p => (loadEntry now ttl p.2).map (fun e => (p.1, e)))

/-- The expiry test of the `purgeExpired` message handler:
`ts = (entry && entry.t) ? entry.t : now` followed by
`CACHE_TTL_DAYS > 0 && (now - ts) > ttlMs`. -/
def purgeTest (now ttl : Int) (e : Entry) : Bool :=
  let ts := if e.t = 0 then now else e.t
  decide (ttl > 0) && decide (now - ts > ttlMs ttl)

/-- The `purgeExpired` message handler: deletes every entry matching the
expiry test and returns the surviving durable tier with the removed
count. -/
def purgeExpired (now ttl : Int) (persist : List (String × Entry)) :
    List (String × Entry) × Nat :=
  (persist.filter (fun p => !purgeTest now ttl p.2),
   (persist.filter (fun p => purgeTest now ttl p.2)).length)

/-- The entry-collecting loop of the debounced save in
`scheduleSavePersistentCache`: walk the fast tier in insertion order,
stop once `count >= MAX_PERSIST_ENTRIES`, keep only truthy values, and
stamp each kept entry with the flush time. -/
def saveLoop (now : Int) (maxE : Nat) : List (String × String) → Nat →
    List (String × Entry)
  | [], _ => []
  | (k, v) :: rest, count =>
    if maxE ≤ count then []
    else if v = "" then saveLoop now maxE rest count
    else (k, ⟨v, now⟩) :: saveLoop now maxE rest (count + 1)

/-- The object written to durable storage (and installed as the
in-memory durable mirror `_persistentCache`) by one persistence flush. -/
def savePersistentCache (now : Int) (maxE : Nat)
    (fast : List (String × String)) : List (String × Entry) :=
  saveLoop now maxE fast 0

/-- A pending-request record: `{ text, target, resolvers: [...] }`.
Resolver callbacks are identified by natural numbers. -/
structure Pending where
  text : String
  target : String
  resolvers : List Nat
deriving DecidableEq

/-- `queueTranslationRequest`: append a resolver to an existing pending
item for the key, or create a fresh item with a single resolver. -/
def queueTranslationRequest (pend : List (String × Pending))
    (key text target : String) (rid : Nat) : List (String × Pending) :=
  match pend with
  | [] => [(key, ⟨text, target, [rid]⟩)]
  | (k, p) :: rest =>
    if k = key then (k, { p with resolvers := p.resolvers ++ [rid] }) :: rest
    else (k, p) :: queueTranslationRequest rest key text target rid

/-- A per-flush work item `{ key, text, resolvers }` inside a
target-language group. -/
structure Item where
  key : String
  text : String
  resolvers : List Nat
deriving DecidableEq

/-- Append an item to its target's group inside the `byTarget` map,
creating the group on first use (JS `Map` insertion order). -/
def addToGroup (groups : List (String × List Item)) (t : String)
    (it : Item) : List (String × List Item) :=
  match groups with
  | [] => [(t, [it])]
  | (t0, its) :: rest =>
    if t0 = t then (t0, its ++ [it]) :: rest
    else (t0, its) :: addToGroup rest t it

/-- One step of the grouping loop of `flushPendingRequests`:
`const t = entry.target || 'en'` then push `{key, text, resolvers}`. -/
def pendStep (acc : List (String × List Item)) (p : String × Pending) :
    List (String × List Item) :=
  addToGroup acc (if p.2.target = "" then "en" else p.2.target)
    ⟨p.1, p.2.text, p.2.resolvers⟩

/-- The `byTarget` grouping of `flushPendingRequests`. -/
def groupByTarget (pend : List (String × Pending)) :
    List (String × List Item) :=
  pend.foldl pendStep []

/-- The defensive per-group de-duplication by key (`seen` set). -/
def dedupeByKey (seen : List String) : List Item → List Item
  | [] => []
  | it :: rest =>
    if it.key ∈ seen then dedupeByKey seen rest
    else it :: dedupeByKey (it.key :: seen) rest

/-- The re-check loop of `flushPendingRequests` building `toTranslate`
and `translateIndex`: skip fast-tier hits, promote durable-tier hits into
the fast tier, and collect the rest for the outbound batch. Returns
`(toTranslate, translateIndex, fast after promotions)`. -/
def collectToTranslate (persist : List (String × Entry)) :
    List (String × String) → List Item →
    List String × List String × List (String × String)
  | fast, [] => ([], [], fast)
  | fast, it :: rest =>
    match alookup fast it.key with
    | some _ => collectToTranslate persist fast rest
    | none =>
      match persistHit persist it.key with
      | some v => collectToTranslate persist (aset fast it.key v) rest
      | none =>
        let r := collectToTranslate persist fast rest
        (it.text :: r.1, it.key :: r.2.1, r.2.2)

/-- `Array.prototype.indexOf` on `translateIndex`. -/
def indexOfKey : List String → String → Option Nat
  | [], _ => none
  | t :: rest, k =>
    if t = k then some 0 else (indexOfKey rest k).map (· + 1)

/-- The per-key value computation of the resolution loop: take the
positional result when the key was sent (`idx >= 0 && results[idx] !==
undefined`, an in-range empty string included), else the empty string,
falling back to the fast-tier value when that leaves it empty. -/
def resolveValue (ti : List String) (results : List String)
    (fast : List (String × String)) (key : String) : String :=
  let t1 :=
    match indexOfKey ti key with
    | some idx => (results.get? idx).getD ""
    | none => ""
  if t1 = "" then (alookup fast key).getD "" else t1

/-- The resolution loop of `flushPendingRequests` over the de-duplicated
items: pick the positional result when present, else fall back to the
fast tier, write non-empty values into both tiers, and fan the value out
to every resolver registered against the key. Returns
`(fast, persist, resolver-id/value pairs delivered)`. -/
def resolveLoop (now : Int) (items : List Item) (ti : List String)
    (results : List String) :
    List (String × String) → List (String × Entry) → List Item →
    List (String × String) × List (String × Entry) × List (Nat × String)
  | fast, persist, [] => (fast, persist, [])
  | fast, persist, u :: rest =>
    let translated := resolveValue ti results fast u.key
    let fast1 := if translated = "" then fast else aset fast u.key translated
    let persist1 :=
      if translated = "" then persist
      else aset persist u.key ⟨translated, now⟩
    let res := ((items.filter (fun it => it.key == u.key)).map
      (fun it => it.resolvers.map (fun r => (r, translated)))).flatten
    let rest1 := resolveLoop now items ti results fast1 persist1 rest
    (rest1.1, rest1.2.1, res ++ rest1.2.2)

/-- Processing of one target-language group in `flushPendingRequests`.
The provider oracle stands for the parsed outbound-call results; a
thrown network error, non-ok HTTP status, or unparseable body leaves the
results empty, which the oracle covers by returning `[]`. Returns the new
fast tier, the new durable mirror, the delivered resolutions, and the
outbound calls issued (`(target, batch)`; none when `toTranslate` is
empty). -/
def processGroup (provider : String → List String → List String)
    (now : Int) (fast : List (String × String))
    (persist : List (String × Entry)) (target : String)
    (items : List Item) :
    List (String × String) × List (String × Entry) ×
      List (Nat × String) × List (String × List String) :=
  let unique := dedupeByKey [] items
  let c := collectToTranslate persist fast unique
  let results := if c.1.isEmpty then [] else provider target c.1
  let calls := if c.1.isEmpty then [] else [(target, c.1)]
  let r := resolveLoop now items c.2.1 results c.2.2 persist unique
  (r.1, r.2.1, r.2.2, calls)

/-- Fold of `processGroup` over all target groups of one flush. -/
def flushGroups (provider : String → List String → List String)
    (now : Int) : List (String × List Item) →
    List (String × String) → List (String × Entry) →
    List (String × String) × List (String × Entry) ×
      List (Nat × String) × List (String × List String)
  | [], fast, persist => (fast, persist, [], [])
  | (t, items) :: rest, fast, persist =>
    let g := processGroup provider now fast persist t items
    let r := flushGroups provider now rest g.1 g.2.1
    (r.1, r.2.1, g.2.2.1 ++ r.2.2.1, g.2.2.2 ++ r.2.2.2)

/-- The background worker state touched by one flush: fast tier, durable
mirror, and the pending-request map. -/
structure BgState where
  fast : List (String × String)
  persist : List (String × Entry)
  pend : List (String × Pending)

/-- `flushPendingRequests`: return immediately when nothing is pending,
else group by target, clear the pending map, and process every group.
Returns the new state, the delivered resolutions, and the outbound calls
issued. -/
def flushPendingRequests (provider : String → List String → List String)
    (now : Int) (st : BgState) :
    BgState × List (Nat × String) × List (String × List String) :=
  if st.pend.isEmpty then (st, [], [])
  else
    let r := flushGroups provider now (groupByTarget st.pend) st.fast st.persist
    (⟨r.1, r.2.1, []⟩, r.2.2.1, r.2.2.2)

/-- All resolver callbacks registered in the pending map. -/
def allResolvers (pend : List (String × Pending)) : List Nat :=
  (pend.map (fun p => p.2.resolvers)).flatten

/-- All resolver callbacks carried by a list of flush items. -/
def itemResolvers (items : List Item) : List Nat :=
  (items.map Item.resolvers).flatten

/-- All resolver callbacks across the `byTarget` groups. -/
def groupsResolvers (groups : List (String × List Item)) : List Nat :=
  (groups.map (fun g => itemResolvers g.2)).flatten

/-- A JS JSON value as returned by the provider endpoints. `jnull` also
stands for `undefined` (both are falsy and both throw on property or
index access). -/
inductive JVal
  | jstr (s : String)
  | jarr (l : List JVal)
  | jobj (l : List (String × JVal))
  | jnull

/-- JS truthiness of a JSON value. -/
def truthy : JVal → Bool
  | .jnull => false
  | .jstr s => !s.isEmpty
  | .jarr _ => true
  | .jobj _ => true

mutual

/-- How `Array.prototype.join` renders one element: `null`/`undefined`
become the empty string, arrays render recursively via `join(',')`, and
plain objects render as `[object Object]`. -/
def joinStr : JVal → String
  | .jnull => ""
  | .jstr s => s
  | .jobj _ => "[object Object]"
  | .jarr l => joinArr l

/-- `Array.prototype.join(',')` over the elements of an array. -/
def joinArr : List JVal → String
  | [] => ""
  | [x] => joinStr x
  | x :: y :: xs => joinStr x ++ "," ++ joinArr (y :: xs)

end

/-- JS property access `o[f]`; `none` models the `TypeError` thrown when
the receiver is `null`/`undefined` (caught by the surrounding
`try/catch`). Properties absent from objects, and named properties of
strings and arrays, read as `undefined`. -/
def jget : JVal → String → Option JVal
  | .jnull, _ => none
  | .jobj l, f => some ((l.lookup f).getD .jnull)
  | .jstr _, _ => some .jnull
  | .jarr _, _ => some .jnull

/-- JS `p[0]` as consumed by `join('')`: `none` models a thrown
`TypeError` (`p` is `null`/`undefined`); a string yields its first
UTF-16 unit (first character here); an empty array yields `undefined`,
hence the empty string under `join`. -/
def seg0 : JVal → Option String
  | .jnull => none
  | .jstr s => some (s.take 1)
  | .jarr [] => some ""
  | .jarr (x :: _) => some (joinStr x)
  | .jobj l => some (joinStr ((l.lookup "0").getD .jnull))

/-- `segArr.map(p => p[0]).join('')` of the public parser's nested
branch; `none` models a thrown `TypeError` (`segArr` has no `.map`, or
some `p[0]` throws). -/
def mapSeg0Join : JVal → Option String
  | .jarr l => (l.mapM seg0).map String.join
  | _ => none

/-- `Array.isArray(data[0][0])` for `inner = data[0]`. -/
def isArrHead : List JVal → Bool
  | .jarr _ :: _ => true
  | _ => false

/-- The public-endpoint (`translate_a/single`) response parser of
`flushPendingRequests`: requires `data` and `data[0]` to be arrays; when
`data[0][0]` is an array and `data[0].length` equals the number of texts
sent, maps each per-input segment array; otherwise falls back to a
single-element list joining first-level segments. A thrown parse error
leaves the results empty. -/
def parsePublic (numTexts : Nat) (data : JVal) : List String :=
  match data with
  | .jarr (.jarr inner :: _) =>
    if isArrHead inner ∧ inner.length = numTexts then
      match inner.mapM mapSeg0Join with
      | some rs => rs
      | none => []
    else
      match (inner.mapM seg0).map String.join with
      | some s => [s]
      | none => []
  | _ => []

/-- `t.translatedText || ''` of the cloud parser, coerced for later use
as a string; `none` models the `TypeError` on a `null` element. -/
def transText (t : JVal) : Option String :=
  (jget t "translatedText").map (fun v => if truthy v then joinStr v else "")

/-- The cloud (Translate v2) response parser of `flushPendingRequests`:
requires truthy `data`, truthy `data.data`, and an array
`data.data.translations`, then maps `t.translatedText || ''` over it.
Any other shape, or a thrown parse error, leaves the results empty. -/
def parseCloud (data : JVal) : List String :=
  if truthy data then
    match jget data "data" with
    | none => []
    | some dd =>
      if truthy dd then
        match jget dd "translations" with
        | none => []
        | some (.jarr ts) => (ts.mapM transText).getD []
        | some _ => []
      else []
  else []

/-- A well-shaped cloud response: truthy `data`, truthy `data.data`, and
an array `data.data.translations`. -/
def cloudShape (data : JVal) (ts : List JVal) : Prop :=
  truthy data = true ∧ ∃ dd, jget data "data" = some dd ∧ truthy dd = true ∧
    jget dd "translations" = some (.jarr ts)

lemma saveLoop_length_le (now : Int) (maxE : Nat) :
    ∀ (l : List (String × String)) (count : Nat),
    (saveLoop now maxE l count).length ≤ maxE - count := by
  intro l
  induction l with
  | nil => intro count; simp [saveLoop]
  | cons p rest ih =>
    intro count
    obtain ⟨k, v⟩ := p
    simp only [saveLoop]
    split
    · simp
    · split
      · exact Nat.le_trans (ih count) (Nat.le_refl _)
      · simp only [List.length_cons]
        have h2 := ih (count + 1)
        omega

lemma saveLoop_mem (now : Int) (maxE : Nat) :
    ∀ (l : List (String × String)) (count : Nat) (k : String) (e : Entry),
    (k, e) ∈ saveLoop now maxE l count → e.t = now ∧ e.v ≠ "" := by
  intro l
  induction l with
  | nil => intro count k e h; simp [saveLoop] at h
  | cons p rest ih =>
    intro count k e h
    obtain ⟨k0, v0⟩ := p
    simp only [saveLoop] at h
    split at h
    · simp at h
    · split at h
      · exact ih count k e h
      · rcases List.mem_cons.mp h with h1 | h1
        · obtain ⟨h2, h3⟩ := Prod.mk.injEq .. ▸ h1
          cases h1
          refine ⟨rfl, by simp_all⟩
        · exact ih (count + 1) k e h1

lemma filter_none_of_false {α : Type} (q : α → Bool) :
    ∀ l : List α, (∀ a ∈ l, q a = false) → l.filter q = [] := by
  intro l
  induction l with
  | nil => intro _; rfl
  | cons a rest ih =>
    intro h
    simp only [List.filter_cons, h a (List.mem_cons_self a rest)]
    exact ih (fun b hb => h b (List.mem_cons_of_mem a hb))

/-- Claim C7: after every persistence flush, the number of entries in the
durable tier (the blob written to storage, which is also installed as the
in-memory mirror) is at most the configured maximum entry count, for
every fast-tier size including one exceeding the cap. -/
theorem C7_durable_size_bound (now : Int) (maxE : Nat)
    (fast : List (String × String)) :
    (savePersistentCache now maxE fast).length ≤ maxE := by
  have h := saveLoop_length_le now maxE fast 0
  simpa [savePersistentCache] using h

/-- Claim C8: calling `purgeExpired` twice with no time elapsed (same
`now`, same TTL setting) removes nothing on the second call: the first
call already removed every entry matching the expiry test. -/
theorem C8_purge_idempotent (now ttl : Int)
    (persist : List (String × Entry)) :
    (purgeExpired now ttl (purgeExpired now ttl persist).1).2 = 0 := by
  have h : (List.filter (fun p => purgeTest now ttl p.2)
      (List.filter (fun p => !purgeTest now ttl p.2) persist)) = [] := by
    apply filter_none_of_false
    intro a ha
    have := List.of_mem_filter ha
    simpa using this
  simp [purgeExpired, h]

/-- Claim C9: the composite cache key `modePrefix + text + '||' + target`
is not injective within a provider mode: the distinct inputs
`("a||b", "c")` and `("a", "b||c")` share a key, so a translation cached
for the first is returned verbatim for the second. -/
theorem C9_cache_key_collision :
    cacheKey false "a||b" "c" = cacheKey false "a" "b||c" ∧
    ("a||b", "c") ≠ (("a", "b||c") : String × String) ∧
    (doTranslateStep false [(cacheKey false "a||b" "c", "v")] [] "a" "b||c").1
      = LookupResult.hitFast "v" := by
  refine ⟨rfl, by decide, rfl⟩

/-- Claim C10: every entry written by a persistence flush is stamped with
the flush time `now` (not the entry's original insertion or load
timestamp), so a flush resets every surviving entry's TTL age to zero: a
purge at any later time within the TTL window removes nothing, hence a
regularly-flushed cache never expires entries by TTL. -/
theorem C10_flush_resets_timestamps (now : Int) (maxE : Nat)
    (fast : List (String × String)) :
    (∀ k e, (k, e) ∈ savePersistentCache now maxE fast → e.t = now) ∧
    (∀ ttl later : Int, 0 < ttl → later - now ≤ ttlMs ttl →
      (purgeExpired later ttl (savePersistentCache now maxE fast)).2 = 0) := by
  constructor
  · intro k e h
    exact (saveLoop_mem now maxE fast 0 k e h).1
  · intro ttl later httl hwin
    have hms : 0 < ttlMs ttl := by
      simp only [ttlMs]
      positivity
    have h : (List.filter (fun p => purgeTest later ttl p.2)
        (savePersistentCache now maxE fast)) = [] := by
      apply filter_none_of_false
      intro p hp
      have ht := (saveLoop_mem now maxE fast 0 p.1 p.2 hp).1
      simp only [purgeTest, ht, ttlMs] at *
      by_cases h0 : now = 0
      · simp only [h0, if_pos rfl]
        simp only [Bool.and_eq_false_iff, decide_eq_false_iff_not]
        right
        omega
      · simp only [if_neg h0]
        simp only [Bool.and_eq_false_iff, decide_eq_false_iff_not]
        right
        omega
    simp [purgeExpired, h]

/-- Witness for C10 at a concrete flush and purge. -/
theorem C10_witness :
    (purgeExpired 5 1 (savePersistentCache 5 2 [("a", "x")])).2 = 0 :=
  (C10_flush_resets_timestamps 5 2 [("a", "x")]).2 1 5 (by decide) (by decide)

/-- Claim C5: an entry is treated as expired iff
`ttlDays > 0 AND (now - entry.timestamp) > ttlDays*86400000`, both in the
purge test and in the load filter, and when `ttlDays <= 0` no entry is
ever discarded as expired, on load or on purge. Timestamps of genuine
entries are `Date.now()` readings, hence nonzero; the `t ≠ 0` provisos
exclude only the JS-falsy timestamp `0`, which the code (and §6 of the
spec) treats as an absent timestamp meaning "just now". -/
theorem C5_expiry_formula :
    (∀ (now ttl : Int) (e : Entry), e.t ≠ 0 →
      purgeTest now ttl e = specExpired e ttl now) ∧
    (∀ (now ttl t : Int) (v : String), v ≠ "" → t ≠ 0 →
      loadEntry now ttl (.robj v (some t))
        = if specExpired ⟨v, t⟩ ttl now = true then none else some ⟨v, t⟩) ∧
    (∀ (now ttl : Int) (persist : List (String × Entry)), ttl ≤ 0 →
      purgeExpired now ttl persist = (persist, 0)) ∧
    (∀ (now ttl : Int) (raw : RawEntry), ttl ≤ 0 →
      (loadEntry now ttl raw).isSome = rawKeepable raw) := by
  refine ⟨?_, ?_, ?_, ?_⟩
  · intro now ttl e ht
    simp [purgeTest, specExpired, ht]
  · intro now ttl t v hv ht
    simp only [loadEntry, if_neg hv, normTs, if_neg ht, specExpired,
      Bool.and_eq_true, decide_eq_true_eq]
  · intro now ttl persist httl
    have hpt : ∀ e : Entry, purgeTest now ttl e = false := by
      intro e
      simp only [purgeTest, Bool.and_eq_false_iff, decide_eq_false_iff_not]
      left
      omega
    simp [purgeExpired, hpt, filter_none_of_false]
  · intro now ttl raw httl
    have hno : ¬ (ttl > 0) := by omega
    cases raw with
    | rnull => simp [loadEntry, rawKeepable]
    | rstr s =>
      by_cases hs : s = "" <;> simp [loadEntry, rawKeepable, hs, hno]
    | robj v t =>
      by_cases hv : v = "" <;> simp [loadEntry, rawKeepable, hv, hno]

/-- Witness for C5 at a concrete entry, raw blob and TTL. -/
theorem C5_witness :
    purgeTest 10 1 ⟨"x", 3⟩ = specExpired ⟨"x", 3⟩ 1 10 ∧
    (loadEntry 0 (-2) (.rstr "y")).isSome = rawKeepable (.rstr "y") :=
  ⟨C5_expiry_formula.1 10 1 ⟨"x", 3⟩ (by decide),
   C5_expiry_formula.2.2.2 0 (-2) (.rstr "y") (by decide)⟩

/-- Counterexample for claim C3: a nested public-endpoint response whose
per-input array count (1) differs from the number of texts sent (2) does
NOT yield an empty result list — the parser takes the fallback branch and
returns a one-element list joining first-level segments, so item 0 is
resolved with a merged string instead of falling back to the empty
string. -/
theorem C3_counterexample :
    parsePublic 2 (.jarr [.jarr [.jarr [.jarr [.jstr "x", .jstr "o"]]], .jnull])
        = ["x,o"] ∧
    (["x,o"] : List String) ≠ [] := by
  exact ⟨rfl, by decide⟩

/-- Claim C3 as amended: the cloud variant yields an empty result list on
any response without the well-formed `data.data.translations` array shape
(`cloudShape`), and the public variant yields an empty list whenever the
response is not an array whose first element is an array; but a nested
public response whose per-input count differs from the number of texts
sent takes the fallback branch and yields a list of at most one merged
element (empty only if the fallback itself throws), so only items at
positions past the first fall back to empty-string resolution there. -/
theorem C3_amended_contract :
    (∀ (n : Nat) (data : JVal),
      (∀ inner rest, data ≠ .jarr (.jarr inner :: rest)) →
      parsePublic n data = []) ∧
    (∀ (n : Nat) (inner rest : List JVal),
      isArrHead inner = true → inner.length ≠ n →
      (parsePublic n (.jarr (.jarr inner :: rest))).length ≤ 1) ∧
    (∀ data : JVal, (∀ ts, ¬ cloudShape data ts) → parseCloud data = []) := by
  refine ⟨?_, ?_, ?_⟩
  · intro n data h
    match data with
    | .jnull => rfl
    | .jstr s => rfl
    | .jobj l => rfl
    | .jarr [] => rfl
    | .jarr (.jnull :: rest) => rfl
    | .jarr (.jstr s :: rest) => rfl
    | .jarr (.jobj l :: rest) => rfl
    | .jarr (.jarr inner :: rest) => exact absurd rfl (h inner rest)
  · intro n inner rest hhead hlen
    have hcond : ¬ (isArrHead inner = true ∧ inner.length = n) := by
      intro hc
      exact hlen hc.2
    simp only [parsePublic, if_neg hcond]
    cases h : (inner.mapM seg0).map String.join with
    | none => simp
    | some s => simp
  · intro data h
    simp only [parseCloud]
    by_cases h1 : truthy data = true
    · simp only [if_pos h1]
      cases h2 : jget data "data" with
      | none => rfl
      | some dd =>
        by_cases h3 : truthy dd = true
        · simp only [if_pos h3]
          cases h4 : jget dd "translations" with
          | none => rfl
          | some tv =>
            cases tv with
            | jarr ts => exact absurd ⟨h1, dd, h2, h3, h4⟩ (h ts)
            | jstr s => rfl
            | jobj l => rfl
            | jnull => rfl
        · simp only [if_neg h3]
    · simp only [if_neg h1]

/-- Witness for the amended C3 at the counterexample's mismatched nested
response and at a shapeless cloud response. -/
theorem C3_witness :
    (parsePublic 2 (.jarr [.jarr [.jarr [.jarr [.jstr "x", .jstr "o"]]],
        .jnull])).length ≤ 1 :=
  C3_amended_contract.2.1 2 [.jarr [.jarr [.jstr "x", .jstr "o"]]] [.jnull]
    rfl (by decide)

/-- Claim C4 as stated: the cache-check phase returns a durable-tier
value only when that entry exists and is not expired under the current
TTL setting. -/
def C4_claim : Prop :=
  ∀ (useCloud : Bool) (fast : List (String × String))
    (persist : List (String × Entry)) (text target : String)
    (ttl now : Int) (v : String),
    (doTranslateStep useCloud fast persist text target).1
      = LookupResult.hitPersist v →
    ∃ e, alookup persist (cacheKey useCloud text target) = some e ∧
      e.v = v ∧ specExpired e ttl now = false

/-- Counterexample for claim C4: the cache-check phase of `doTranslate`
performs no expiry test, so an entry whose age exceeds the TTL is still
returned from the durable tier (and promoted into the fast tier):
entry timestamp 1, `ttlDays = 1`, `now = 86400002`. -/
theorem C4_counterexample :
    ¬ C4_claim ∧
    (doTranslateStep false [] [(cacheKey false "a" "b", ⟨"x", 1⟩)]
      "a" "b").2 = [(cacheKey false "a" "b", "x")] := by
  constructor
  · intro h
    obtain ⟨e, he, hv, hex⟩ :=
      h false [] [(cacheKey false "a" "b", ⟨"x", 1⟩)] "a" "b" 1 86400002 "x" rfl
    have he2 : some (⟨"x", 1⟩ : Entry) = some e := he
    cases he2
    exact absurd hex (by decide)
  · rfl

/-- Claim C4 as amended: the cache-check phase promotes and returns a
durable-tier value exactly when the fast tier misses and the durable
entry exists with a non-empty value — regardless of expiry; expiry is
enforced only when the durable blob is loaded (a freshly loaded entry is
never expired at load time) and by `purgeExpired`. -/
theorem C4_amended_promotion :
    (∀ (useCloud : Bool) (fast : List (String × String))
      (persist : List (String × Entry)) (text target v : String),
      text ≠ "" → target ≠ "" →
      ((doTranslateStep useCloud fast persist text target).1
          = LookupResult.hitPersist v ↔
        alookup fast (cacheKey useCloud text target) = none ∧
        persistHit persist (cacheKey useCloud text target) = some v)) ∧
    (∀ (now ttl : Int) (raw : List (String × RawEntry)) (k : String)
      (e : Entry), (k, e) ∈ loadCache now ttl raw →
      specExpired e ttl now = false) := by
  constructor
  · intro useCloud fast persist text target v htext htarget
    have hcond : ¬ (text = "" ∨ target = "") := by
      intro hc
      rcases hc with hc | hc
      · exact htext hc
      · exact htarget hc
    simp only [doTranslateStep, if_neg hcond]
    cases h1 : alookup fast (cacheKey useCloud text target) with
    | some w => simp [h1]
    | none =>
      cases h2 : persistHit persist (cacheKey useCloud text target) with
      | some w => simp [h2]
      | none => simp [h2]
  · intro now ttl raw k e h
    simp only [loadCache, List.mem_filterMap] at h
    obtain ⟨p, hp, hmap⟩ := h
    rw [Option.map_eq_some'] at hmap
    obtain ⟨e0, he0, heq⟩ := hmap
    have he : loadEntry now ttl p.2 = some e := by
      cases heq
      exact he0
    clear he0 heq hp
    cases hraw : p.2 with
    | rnull => simp [loadEntry, hraw] at he
    | rstr s =>
      rw [hraw] at he
      simp only [loadEntry] at he
      by_cases hs : s = ""
      · rw [if_pos hs] at he; exact Option.noConfusion he
      · rw [if_neg hs] at he
        by_cases hx : ttl > 0 ∧ now - now > ttlMs ttl
        · rw [if_pos hx] at he; exact Option.noConfusion he
        · rw [if_neg hx] at he
          cases he
          simp only [specExpired, Bool.and_eq_false_iff,
            decide_eq_false_iff_not, ttlMs] at *
          omega
    | robj v0 t0 =>
      rw [hraw] at he
      simp only [loadEntry] at he
      by_cases hv : v0 = ""
      · rw [if_pos hv] at he; exact Option.noConfusion he
      · rw [if_neg hv] at he
        by_cases hx : ttl > 0 ∧ now - normTs now t0 > ttlMs ttl
        · rw [if_pos hx] at he; exact Option.noConfusion he
        · rw [if_neg hx] at he
          cases he
          simp only [specExpired, Bool.and_eq_false_iff,
            decide_eq_false_iff_not, ttlMs] at *
          omega

/-- Witness for the amended C4 at a concrete expired durable entry that
is nevertheless promoted and returned. -/
theorem C4_witness :
    (doTranslateStep false [] [(cacheKey false "a" "b", ⟨"x", 1⟩)]
        "a" "b").1 = LookupResult.hitPersist "x" ↔
      alookup ([] : List (String × String)) (cacheKey false "a" "b") = none ∧
      persistHit [(cacheKey false "a" "b", ⟨"x", 1⟩)]
        (cacheKey false "a" "b") = some "x" :=
  C4_amended_promotion.1 false [] [(cacheKey false "a" "b", ⟨"x", 1⟩)]
    "a" "b" "x" (by decide) (by decide)

lemma alookup_aset_ne {α : Type} (k key : String) (v : α) (h : k ≠ key) :
    ∀ l : List (String × α), alookup (aset l k v) key = alookup l key := by
  intro l
  induction l with
  | nil => simp [aset, alookup, h]
  | cons p rest ih =>
    obtain ⟨k0, w⟩ := p
    by_cases hk : k0 = k
    · simp [aset, alookup, hk, h, ih]
    · simp only [aset, if_neg hk, alookup]
      by_cases hk2 : k0 = key <;> simp [hk2, ih]

lemma alookup_aset_eq {α : Type} (k : String) (v : α) :
    ∀ l : List (String × α), alookup (aset l k v) k = some v := by
  intro l
  induction l with
  | nil => simp [aset, alookup]
  | cons p rest ih =>
    obtain ⟨k0, w⟩ := p
    by_cases hk : k0 = k
    · simp [aset, alookup, hk]
    · simp [aset, alookup, hk, ih]

lemma persistHit_aset_ne (k key : String) (e : Entry) (h : k ≠ key)
    (persist : List (String × Entry)) :
    persistHit (aset persist k e) key = persistHit persist key := by
  simp [persistHit, alookup_aset_ne k key e h persist]

lemma persistHit_some_ne (persist : List (String × Entry)) (key v : String)
    (h : persistHit persist key = some v) : v ≠ "" := by
  cases h1 : alookup persist key with
  | none => simp [persistHit, h1] at h
  | some e =>
    simp only [persistHit, h1] at h
    by_cases h2 : e.v = ""
    · simp [h2] at h
    · rw [if_neg h2] at h
      cases h
      exact h2

lemma option_step {α : Type} (P : Option α → Prop) (a b c : Option α)
    (h1 : b = a ∨ P b) (h2 : c = b ∨ P c) : c = a ∨ P c := by
  rcases h2 with h2 | h2
  · rcases h1 with h1 | h1
    · left; rw [h2, h1]
    · right; rwa [h2]
  · right; exact h2

lemma collect_fast_mono (persist : List (String × Entry)) (key : String) :
    ∀ (uniq : List Item) (fast : List (String × String)),
    alookup (collectToTranslate persist fast uniq).2.2 key = alookup fast key ∨
    ∃ v, v ≠ "" ∧ alookup (collectToTranslate persist fast uniq).2.2 key = some v := by
  intro uniq
  induction uniq with
  | nil => intro fast; left; rfl
  | cons it rest ih =>
    intro fast
    cases h1 : alookup fast it.key with
    | some w => simp only [collectToTranslate, h1]; exact ih fast
    | none =>
      cases h2 : persistHit persist it.key with
      | some v =>
        simp only [collectToTranslate, h1, h2]
        refine option_step (fun o => ∃ v, v ≠ "" ∧ o = some v) _ _ _ ?_ (ih _)
        by_cases hk : it.key = key
        · right
          exact ⟨v, persistHit_some_ne persist it.key v h2,
            by rw [← hk]; exact alookup_aset_eq it.key v fast⟩
        · left; exact alookup_aset_ne it.key key v hk fast
      | none =>
        simp only [collectToTranslate, h1, h2]
        exact ih fast

lemma collect_fast_none (persist : List (String × Entry)) (key : String)
    (hper : persistHit persist key = none) :
    ∀ (uniq : List Item) (fast : List (String × String)),
    alookup fast key = none →
    alookup (collectToTranslate persist fast uniq).2.2 key = none := by
  intro uniq
  induction uniq with
  | nil => intro fast h; exact h
  | cons it rest ih =>
    intro fast h
    cases h1 : alookup fast it.key with
    | some w => simp only [collectToTranslate, h1]; exact ih fast h
    | none =>
      cases h2 : persistHit persist it.key with
      | some v =>
        simp only [collectToTranslate, h1, h2]
        have hk : it.key ≠ key := by
          intro he
          rw [he, hper] at h2
          exact Option.noConfusion h2
        exact ih _ (by rw [alookup_aset_ne it.key key v hk fast]; exact h)
      | none =>
        simp only [collectToTranslate, h1, h2]
        exact ih fast h

lemma resolveLoop_mono (now : Int) (items : List Item) (ti : List String)
    (results : List String) (key : String) :
    ∀ (uniq : List Item) (fast : List (String × String))
      (persist : List (String × Entry)),
    (alookup (resolveLoop now items ti results fast persist uniq).1 key
        = alookup fast key ∨
      ∃ v, v ≠ "" ∧
        alookup (resolveLoop now items ti results fast persist uniq).1 key
          = some v) ∧
    (alookup (resolveLoop now items ti results fast persist uniq).2.1 key
        = alookup persist key ∨
      ∃ v, v ≠ "" ∧
        alookup (resolveLoop now items ti results fast persist uniq).2.1 key
          = some ⟨v, now⟩) := by
  intro uniq
  induction uniq with
  | nil => intro fast persist; exact ⟨Or.inl rfl, Or.inl rfl⟩
  | cons u rest ih =>
    intro fast persist
    simp only [resolveLoop]
    by_cases htr : resolveValue ti results fast u.key = ""
    · simp only [htr, if_pos rfl]
      exact ih fast persist
    · simp only [if_neg htr]
      obtain ⟨ihf, ihp⟩ := ih (aset fast u.key (resolveValue ti results fast u.key))
        (aset persist u.key ⟨resolveValue ti results fast u.key, now⟩)
      constructor
      · refine option_step (fun o => ∃ v, v ≠ "" ∧ o = some v) _ _ _ ?_ ihf
        by_cases hk : u.key = key
        · right
          exact ⟨resolveValue ti results fast u.key, htr,
            by rw [← hk]; exact alookup_aset_eq u.key _ fast⟩
        · left; exact alookup_aset_ne u.key key _ hk fast
      · refine option_step (fun o => ∃ v, v ≠ "" ∧ o = some (⟨v, now⟩ : Entry))
          _ _ _ ?_ ihp
        by_cases hk : u.key = key
        · right
          exact ⟨resolveValue ti results fast u.key, htr,
            by rw [← hk]; exact alookup_aset_eq u.key _ persist⟩
        · left; exact alookup_aset_ne u.key key _ hk persist

lemma resolveValue_nil_results (ti : List String)
    (fast : List (String × String)) (key : String) :
    resolveValue ti [] fast key = (alookup fast key).getD "" := by
  simp only [resolveValue]
  cases h : indexOfKey ti key <;> simp

lemma resolveLoop_nil_results (now : Int) (items : List Item)
    (ti : List String) (key : String) :
    ∀ (uniq : List Item) (fast : List (String × String))
      (persist : List (String × Entry)),
    alookup fast key = none → persistHit persist key = none →
    alookup (resolveLoop now items ti [] fast persist uniq).1 key = none ∧
    persistHit (resolveLoop now items ti [] fast persist uniq).2.1 key = none := by
  intro uniq
  induction uniq with
  | nil => intro fast persist hf hp; exact ⟨hf, hp⟩
  | cons u rest ih =>
    intro fast persist hf hp
    simp only [resolveLoop]
    by_cases htr : resolveValue ti [] fast u.key = ""
    · simp only [htr, if_pos rfl]
      exact ih fast persist hf hp
    · simp only [if_neg htr]
      have hk : u.key ≠ key := by
        intro he
        rw [he] at htr
        rw [resolveValue_nil_results ti fast key, hf] at htr
        exact htr rfl
      refine ih _ _ ?_ ?_
      · rw [alookup_aset_ne u.key key _ hk fast]; exact hf
      · rw [persistHit_aset_ne u.key key _ hk persist]; exact hp

lemma processGroup_mono (provider : String → List String → List String)
    (now : Int) (fast : List (String × String))
    (persist : List (String × Entry)) (target : String) (items : List Item)
    (key : String) :
    (alookup (processGroup provider now fast persist target items).1 key
        = alookup fast key ∨
      ∃ v, v ≠ "" ∧
        alookup (processGroup provider now fast persist target items).1 key
          = some v) ∧
    (alookup (processGroup provider now fast persist target items).2.1 key
        = alookup persist key ∨
      ∃ v, v ≠ "" ∧
        alookup (processGroup provider now fast persist target items).2.1 key
          = some ⟨v, now⟩) := by
  simp only [processGroup]
  constructor
  · exact option_step (fun o => ∃ v, v ≠ "" ∧ o = some v) _ _ _
      (collect_fast_mono persist key _ fast)
      ((resolveLoop_mono now items _ _ key _ _ persist).1)
  · exact (resolveLoop_mono now items _ _ key _ _ persist).2

lemma flushGroups_mono (provider : String → List String → List String)
    (now : Int) (key : String) :
    ∀ (groups : List (String × List Item)) (fast : List (String × String))
      (persist : List (String × Entry)),
    (alookup (flushGroups provider now groups fast persist).1 key
        = alookup fast key ∨
      ∃ v, v ≠ "" ∧
        alookup (flushGroups provider now groups fast persist).1 key
          = some v) ∧
    (alookup (flushGroups provider now groups fast persist).2.1 key
        = alookup persist key ∨
      ∃ v, v ≠ "" ∧
        alookup (flushGroups provider now groups fast persist).2.1 key
          = some ⟨v, now⟩) := by
  intro groups
  induction groups with
  | nil => intro fast persist; exact ⟨Or.inl rfl, Or.inl rfl⟩
  | cons g rest ih =>
    intro fast persist
    obtain ⟨t, items⟩ := g
    simp only [flushGroups]
    obtain ⟨hpf, hpp⟩ := processGroup_mono provider now fast persist t items key
    obtain ⟨ihf, ihp⟩ := ih (processGroup provider now fast persist t items).1
      (processGroup provider now fast persist t items).2.1
    exact ⟨option_step (fun o => ∃ v, v ≠ "" ∧ o = some v) _ _ _ hpf ihf,
      option_step (fun o => ∃ v, v ≠ "" ∧ o = some (⟨v, now⟩ : Entry)) _ _ _
        hpp ihp⟩

lemma processGroup_none (now : Int) (target : String) (items : List Item)
    (key : String) (fast : List (String × String))
    (persist : List (String × Entry))
    (hf : alookup fast key = none) (hp : persistHit persist key = none) :
    alookup (processGroup (fun _ _ => []) now fast persist target items).1 key
        = none ∧
    persistHit
      (processGroup (fun _ _ => []) now fast persist target items).2.1 key
        = none := by
  simp only [processGroup, ite_self]
  exact resolveLoop_nil_results now items _ key _ _ persist
    (collect_fast_none persist key hp _ fast hf) hp

lemma flushGroups_none (now : Int) (key : String) :
    ∀ (groups : List (String × List Item)) (fast : List (String × String))
      (persist : List (String × Entry)),
    alookup fast key = none → persistHit persist key = none →
    alookup (flushGroups (fun _ _ => []) now groups fast persist).1 key
        = none ∧
    persistHit (flushGroups (fun _ _ => []) now groups fast persist).2.1 key
        = none := by
  intro groups
  induction groups with
  | nil => intro fast persist hf hp; exact ⟨hf, hp⟩
  | cons g rest ih =>
    intro fast persist hf hp
    obtain ⟨t, items⟩ := g
    simp only [flushGroups]
    obtain ⟨hf1, hp1⟩ := processGroup_none now t items key fast persist hf hp
    exact ih _ _ hf1 hp1

/-- Claim C6: only non-empty translated values are written — a
persistence flush stores only non-empty values (all stamped entries have
truthy `v`), a batch flush leaves each tier entry either untouched or set
to a non-empty value, and after a flush in which the provider produced
nothing (a thrown call, a non-ok status' empty parse, or an empty
response) an initially uncached key is still absent from both tiers, so
the next `doTranslate` for it misses the caches and takes the fresh
outbound-queue path rather than being served a cached blank. -/
theorem C6_no_empty_writes :
    (∀ (now : Int) (maxE : Nat) (fast : List (String × String))
      (k : String) (e : Entry),
      (k, e) ∈ savePersistentCache now maxE fast → e.v ≠ "") ∧
    (∀ (provider : String → List String → List String) (now : Int)
      (st : BgState) (key : String),
      (alookup (flushPendingRequests provider now st).1.fast key
          = alookup st.fast key ∨
        ∃ v, v ≠ "" ∧
          alookup (flushPendingRequests provider now st).1.fast key
            = some v) ∧
      (alookup (flushPendingRequests provider now st).1.persist key
          = alookup st.persist key ∨
        ∃ v, v ≠ "" ∧
          alookup (flushPendingRequests provider now st).1.persist key
            = some ⟨v, now⟩)) ∧
    (∀ (useCloud : Bool) (now : Int) (fast : List (String × String))
      (persist : List (String × Entry)) (pend : List (String × Pending))
      (text target : String),
      text ≠ "" → target ≠ "" →
      alookup fast (cacheKey useCloud text target) = none →
      persistHit persist (cacheKey useCloud text target) = none →
      (doTranslateStep useCloud
        (flushPendingRequests (fun _ _ => []) now ⟨fast, persist, pend⟩).1.fast
        (flushPendingRequests (fun _ _ => []) now ⟨fast, persist, pend⟩).1.persist
        text target).1 = LookupResult.miss) := by
  refine ⟨?_, ?_, ?_⟩
  · intro now maxE fast k e h
    exact (saveLoop_mem now maxE fast 0 k e h).2
  · intro provider now st key
    simp only [flushPendingRequests]
    by_cases he : st.pend.isEmpty
    · simp [he]
    · simp only [if_neg he]
      exact flushGroups_mono provider now key (groupByTarget st.pend)
        st.fast st.persist
  · intro useCloud now fast persist pend text target htext htarget hf hp
    have hcond : ¬ (text = "" ∨ target = "") := by
      intro hc
      rcases hc with hc | hc
      · exact htext hc
      · exact htarget hc
    have hboth :
        alookup (flushPendingRequests (fun _ _ => []) now
            ⟨fast, persist, pend⟩).1.fast (cacheKey useCloud text target)
          = none ∧
        persistHit (flushPendingRequests (fun _ _ => []) now
            ⟨fast, persist, pend⟩).1.persist (cacheKey useCloud text target)
          = none := by
      simp only [flushPendingRequests]
      by_cases he : pend.isEmpty
      · simp only [if_pos he]
        exact ⟨hf, hp⟩
      · simp only [if_neg he]
        exact flushGroups_none now (cacheKey useCloud text target)
          (groupByTarget pend) fast persist hf hp
    simp only [doTranslateStep, if_neg hcond, hboth.1, hboth.2]

/-- Witness for C6 at a concrete failed flush: the key stays uncached and
a retry takes the outbound path. -/
theorem C6_witness :
    (doTranslateStep false
      (flushPendingRequests (fun _ _ => []) 7
        ⟨[], [], [(cacheKey false "a" "b", ⟨"a", "b", [0]⟩)]⟩).1.fast
      (flushPendingRequests (fun _ _ => []) 7
        ⟨[], [], [(cacheKey false "a" "b", ⟨"a", "b", [0]⟩)]⟩).1.persist
      "a" "b").1 = LookupResult.miss :=
  C6_no_empty_writes.2.2 false 7 [] []
    [(cacheKey false "a" "b", ⟨"a", "b", [0]⟩)] "a" "b"
    (by decide) (by decide) rfl rfl

lemma queue_foldl_acc (key text target : String) :
    ∀ (rids : List Nat) (acc : List Nat),
    rids.foldl (fun p r => queueTranslationRequest p key text target r)
        [(key, ⟨text, target, acc⟩)]
      = [(key, ⟨text, target, acc ++ rids⟩)] := by
  intro rids
  induction rids with
  | nil => intro acc; simp
  | cons r rest ih =>
    intro acc
    simp only [List.foldl_cons]
    have hstep : queueTranslationRequest [(key, ⟨text, target, acc⟩)]
        key text target r = [(key, ⟨text, target, acc ++ [r]⟩)] := by
      simp [queueTranslationRequest]
    rw [hstep, ih (acc ++ [r])]
    simp

lemma queue_build (key text target : String) (r : Nat) (rest : List Nat) :
    (r :: rest).foldl
        (fun p q => queueTranslationRequest p key text target q) []
      = [(key, ⟨text, target, r :: rest⟩)] := by
  simp only [List.foldl_cons]
  have hstep : queueTranslationRequest [] key text target r
      = [(key, ⟨text, target, [r]⟩)] := rfl
  rw [hstep, queue_foldl_acc key text target rest [r]]
  rfl

/-- Claim C1: N concurrent translate requests with the same text and
target (hence the same cache key), queued within one debounce window with
no cached entry for that key, use at most one outbound provider call slot
— the flush issues exactly one call whose batch contains exactly one
occurrence of the text — and all N registered callers receive the same
resolved string. -/
theorem C1_coalesce_identical_requests
    (provider : String → List String → List String) (now : Int)
    (useCloud : Bool) (fast : List (String × String))
    (persist : List (String × Entry)) (text target : String)
    (r : Nat) (rest : List Nat)
    (htext : text ≠ "") (htarget : target ≠ "")
    (hfast : alookup fast (cacheKey useCloud text target) = none)
    (hper : persistHit persist (cacheKey useCloud text target) = none) :
    (flushPendingRequests provider now
        ⟨fast, persist,
          (r :: rest).foldl (fun p q => queueTranslationRequest p
            (cacheKey useCloud text target) text target q) []⟩).2.2
      = [(target, [text])] ∧
    ∃ v, (flushPendingRequests provider now
        ⟨fast, persist,
          (r :: rest).foldl (fun p q => queueTranslationRequest p
            (cacheKey useCloud text target) text target q) []⟩).2.1
      = (r :: rest).map (fun q => (q, v)) := by
  rw [queue_build (cacheKey useCloud text target) text target r rest]
  have hgroup : groupByTarget
      [(cacheKey useCloud text target, ⟨text, target, r :: rest⟩)]
      = [(target, [⟨cacheKey useCloud text target, text, r :: rest⟩])] := by
    simp [groupByTarget, pendStep, addToGroup, htarget]
  simp only [flushPendingRequests, List.isEmpty_cons, if_neg, hgroup,
    Bool.false_eq_true, not_false_eq_true, if_false]
  simp only [flushGroups, processGroup, dedupeByKey, List.not_mem_nil,
    if_false, collectToTranslate, hfast, hper, List.isEmpty_cons,
    Bool.false_eq_true, if_false, resolveLoop, resolveValue, indexOfKey,
    if_pos rfl, List.filter_cons, beq_self_eq_true, List.filter_nil,
    List.map_cons, List.map_nil, List.flatten, List.append_nil]
  refine ⟨trivial, ?_⟩
  refine ⟨if ((provider target [text]).get? 0).getD "" = ""
    then "" else ((provider target [text]).get? 0).getD "", ?_⟩
  simp

/-- Witness for C1: two concurrent requests for the same Hebrew text with
no prior cache produce one outbound batch with one occurrence of the text
and one shared resolved string. -/
theorem C1_witness :
    (flushPendingRequests (fun _ _ => ["hello"]) 0
        ⟨[], [],
          (0 :: [1]).foldl (fun p q => queueTranslationRequest p
            (cacheKey false "שלום" "en") "שלום" "en" q) []⟩).2.2
      = [("en", ["שלום"])] ∧
    ∃ v, (flushPendingRequests (fun _ _ => ["hello"]) 0
        ⟨[], [],
          (0 :: [1]).foldl (fun p q => queueTranslationRequest p
            (cacheKey false "שלום" "en") "שלום" "en" q) []⟩).2.1
      = (0 :: [1]).map (fun q => (q, v)) :=
  C1_coalesce_identical_requests (fun _ _ => ["hello"]) 0 false [] []
    "שלום" "en" 0 [1] (by decide) (by decide) rfl rfl

lemma map_flatten_eq {α β : Type} (f : α → β) :
    ∀ L : List (List α), L.flatten.map f = (L.map (List.map f)).flatten := by
  intro L
  induction L with
  | nil => rfl
  | cons l rest ih => simp [ih]

lemma count_flatten_eq (a : Nat) :
    ∀ L : List (List Nat), L.flatten.count a = (L.map (List.count a)).sum := by
  intro L
  induction L with
  | nil => rfl
  | cons l rest ih => simp [List.count_append, ih]

lemma itemResolvers_cons (it : Item) (items : List Item) :
    itemResolvers (it :: items) = it.resolvers ++ itemResolvers items := by
  simp [itemResolvers]

lemma itemResolvers_append (a b : List Item) :
    itemResolvers (a ++ b) = itemResolvers a ++ itemResolvers b := by
  simp [itemResolvers]

lemma resolveLoop_res (now : Int) (items : List Item) (ti : List String)
    (results : List String) :
    ∀ (uniq : List Item) (fast : List (String × String))
      (persist : List (String × Entry)),
    ((resolveLoop now items ti results fast persist uniq).2.2).map Prod.fst
      = (uniq.map (fun u =>
          itemResolvers (items.filter (fun it => it.key == u.key)))).flatten := by
  intro uniq
  induction uniq with
  | nil => intro fast persist; rfl
  | cons u rest ih =>
    intro fast persist
    simp only [resolveLoop, List.map_cons, List.flatten_cons, List.map_append]
    rw [ih]
    congr 1
    rw [map_flatten_eq]
    simp only [itemResolvers, List.map_map]
    congr 1
    apply List.map_congr_left
    intro it _
    simp [Function.comp_def]

lemma sum_map_add_split (f g : String → Nat) :
    ∀ keys : List String,
    (keys.map (fun k => f k + g k)).sum = (keys.map f).sum + (keys.map g).sum := by
  intro keys
  induction keys with
  | nil => rfl
  | cons k rest ih => simp [ih]; omega

lemma sum_if_not_mem (key : String) (c : Nat) :
    ∀ keys : List String, key ∉ keys →
    (keys.map (fun k => if key = k then c else 0)).sum = 0 := by
  intro keys
  induction keys with
  | nil => intro _; rfl
  | cons k rest ih =>
    intro h
    have h1 : key ≠ k := fun he => h (he ▸ List.mem_cons_self k rest)
    have h2 : key ∉ rest := fun he => h (List.mem_cons_of_mem k he)
    simp [h1, ih h2]

lemma sum_if_mem (key : String) (c : Nat) :
    ∀ keys : List String, keys.Nodup → key ∈ keys →
    (keys.map (fun k => if key = k then c else 0)).sum = c := by
  intro keys
  induction keys with
  | nil => intro _ h; exact absurd h (List.not_mem_nil key)
  | cons k rest ih =>
    intro hnd hm
    obtain ⟨hk, hnd2⟩ := List.nodup_cons.mp hnd
    by_cases he : key = k
    · have h2 : key ∉ rest := he ▸ hk
      simp [he, sum_if_not_mem k c rest (he ▸ h2)]
    · have h2 : key ∈ rest := by
        rcases List.mem_cons.mp hm with h | h
        · exact absurd h he
        · exact h
      simp [he, ih hnd2 h2]

lemma count_fanout (rid : Nat) :
    ∀ (items : List Item) (keys : List String),
    keys.Nodup → (∀ it ∈ items, it.key ∈ keys) →
    ((keys.map (fun k =>
        itemResolvers (items.filter (fun it => it.key == k)))).flatten).count rid
      = (itemResolvers items).count rid := by
  intro items
  induction items with
  | nil =>
    intro keys _ _
    rw [count_flatten_eq]
    have hz : ∀ ks : List String,
        ((ks.map (fun k =>
          itemResolvers (List.filter (fun it => it.key == k) []))).map
            (List.count rid)).sum = 0 := by
      intro ks
      induction ks with
      | nil => rfl
      | cons k r2 ih2 => simpa [itemResolvers] using ih2
    rw [hz keys]
    rfl
  | cons it items ih =>
    intro keys hnd hcov
    have hstep : ∀ k,
        (itemResolvers ((it :: items).filter (fun x => x.key == k))).count rid
          = (if it.key = k then it.resolvers.count rid else 0)
            + (itemResolvers (items.filter (fun x => x.key == k))).count rid := by
      intro k
      by_cases hk : it.key = k
      · simp [List.filter_cons, hk, itemResolvers_cons, List.count_append]
      · simp [List.filter_cons, hk]
    rw [count_flatten_eq]
    simp only [List.map_map]
    have hcongr : (keys.map (List.count rid ∘ fun k =>
        itemResolvers ((it :: items).filter (fun x => x.key == k))))
        = keys.map (fun k => (if it.key = k then it.resolvers.count rid else 0)
            + (itemResolvers (items.filter (fun x => x.key == k))).count rid) := by
      apply List.map_congr_left
      intro k _
      exact hstep k
    rw [hcongr, sum_map_add_split]
    rw [sum_if_mem it.key (it.resolvers.count rid) keys hnd
      (hcov it (List.mem_cons_self it items))]
    have hrest := ih keys hnd (fun x hx => hcov x (List.mem_cons_of_mem it hx))
    rw [count_flatten_eq] at hrest
    simp only [List.map_map, Function.comp_def] at hrest
    rw [hrest, itemResolvers_cons, List.count_append]

lemma dedupe_keys_not_seen :
    ∀ (items : List Item) (seen : List String) (k : String),
    k ∈ (dedupeByKey seen items).map Item.key → k ∉ seen := by
  intro items
  induction items with
  | nil => intro seen k h; simp [dedupeByKey] at h
  | cons it rest ih =>
    intro seen k h
    by_cases hs : it.key ∈ seen
    · rw [dedupeByKey, if_pos hs] at h
      exact ih seen k h
    · rw [dedupeByKey, if_neg hs] at h
      simp only [List.map_cons, List.mem_cons] at h
      rcases h with h | h
      · exact h ▸ hs
      · have := ih (it.key :: seen) k h
        exact fun hk => this (List.mem_cons_of_mem it.key hk)

lemma dedupe_keys_nodup :
    ∀ (items : List Item) (seen : List String),
    ((dedupeByKey seen items).map Item.key).Nodup := by
  intro items
  induction items with
  | nil => intro seen; simp [dedupeByKey]
  | cons it rest ih =>
    intro seen
    by_cases hs : it.key ∈ seen
    · rw [dedupeByKey, if_pos hs]
      exact ih seen
    · rw [dedupeByKey, if_neg hs]
      simp only [List.map_cons, List.nodup_cons]
      refine ⟨?_, ih (it.key :: seen)⟩
      intro hmem
      exact dedupe_keys_not_seen rest (it.key :: seen) it.key hmem
        (List.mem_cons_self it.key seen)

lemma dedupe_covers :
    ∀ (items : List Item) (seen : List String) (it : Item), it ∈ items →
    it.key ∈ seen ∨ it.key ∈ (dedupeByKey seen items).map Item.key := by
  intro items
  induction items with
  | nil => intro seen it h; exact absurd h (List.not_mem_nil it)
  | cons it0 rest ih =>
    intro seen it h
    by_cases hs : it0.key ∈ seen
    · rw [dedupeByKey, if_pos hs]
      rcases List.mem_cons.mp h with h1 | h1
      · left; exact h1 ▸ hs
      · exact ih seen it h1
    · rw [dedupeByKey, if_neg hs]
      simp only [List.map_cons, List.mem_cons]
      rcases List.mem_cons.mp h with h1 | h1
      · right; left; rw [h1]
      · rcases ih (it0.key :: seen) it h1 with h2 | h2
        · rcases List.mem_cons.mp h2 with h3 | h3
          · right; left; exact h3
          · left; exact h3
        · right; right; exact h2

lemma processGroup_res_count
    (provider : String → List String → List String) (now : Int)
    (fast : List (String × String)) (persist : List (String × Entry))
    (target : String) (items : List Item) (rid : Nat) :
    (((processGroup provider now fast persist target items).2.2.1).map
        Prod.fst).count rid
      = (itemResolvers items).count rid := by
  simp only [processGroup]
  rw [resolveLoop_res]
  have hfactor : (dedupeByKey [] items).map (fun u =>
      itemResolvers (items.filter (fun it => it.key == u.key)))
      = ((dedupeByKey [] items).map Item.key).map (fun k =>
          itemResolvers (items.filter (fun it => it.key == k))) := by
    rw [List.map_map]
    rfl
  rw [hfactor]
  refine count_fanout rid items ((dedupeByKey [] items).map Item.key)
    (dedupe_keys_nodup items []) ?_
  intro it hit
  rcases dedupe_covers items [] it hit with h | h
  · exact absurd h (List.not_mem_nil it.key)
  · exact h

lemma groupsResolvers_cons (g : String × List Item)
    (rest : List (String × List Item)) :
    groupsResolvers (g :: rest) = itemResolvers g.2 ++ groupsResolvers rest := by
  simp [groupsResolvers]

lemma addToGroup_count (rid : Nat) :
    ∀ (groups : List (String × List Item)) (t : String) (it : Item),
    (groupsResolvers (addToGroup groups t it)).count rid
      = (groupsResolvers groups).count rid + (it.resolvers).count rid := by
  intro groups
  induction groups with
  | nil =>
    intro t it
    simp [addToGroup, groupsResolvers, itemResolvers]
  | cons g rest ih =>
    intro t it
    obtain ⟨t0, its⟩ := g
    by_cases ht : t0 = t
    · rw [addToGroup, if_pos ht]
      rw [groupsResolvers_cons, groupsResolvers_cons]
      simp only [itemResolvers_append, List.count_append]
      have hone : itemResolvers [it] = it.resolvers := by
        simp [itemResolvers]
      rw [hone]
      omega
    · rw [addToGroup, if_neg ht]
      rw [groupsResolvers_cons, groupsResolvers_cons]
      simp only [List.count_append]
      rw [ih t it]
      omega

lemma allResolvers_cons (p : String × Pending)
    (pend : List (String × Pending)) :
    allResolvers (p :: pend) = p.2.resolvers ++ allResolvers pend := by
  simp [allResolvers]

lemma groupByTarget_count (rid : Nat) :
    ∀ (pend : List (String × Pending)) (acc : List (String × List Item)),
    (groupsResolvers (pend.foldl pendStep acc)).count rid
      = (groupsResolvers acc).count rid + (allResolvers pend).count rid := by
  intro pend
  induction pend with
  | nil =>
    intro acc
    simp [allResolvers]
  | cons p rest ih =>
    intro acc
    simp only [List.foldl_cons]
    rw [ih (pendStep acc p)]
    rw [allResolvers_cons, List.count_append]
    have hstep : (groupsResolvers (pendStep acc p)).count rid
        = (groupsResolvers acc).count rid + (p.2.resolvers).count rid := by
      simp only [pendStep]
      exact addToGroup_count rid acc _ _
    rw [hstep]
    omega

lemma flushGroups_res_count
    (provider : String → List String → List String) (now : Int) (rid : Nat) :
    ∀ (groups : List (String × List Item)) (fast : List (String × String))
      (persist : List (String × Entry)),
    (((flushGroups provider now groups fast persist).2.2.1).map
        Prod.fst).count rid
      = (groupsResolvers groups).count rid := by
  intro groups
  induction groups with
  | nil => intro fast persist; simp [flushGroups, groupsResolvers]
  | cons g rest ih =>
    intro fast persist
    obtain ⟨t, items⟩ := g
    simp only [flushGroups, List.map_append, List.count_append]
    rw [processGroup_res_count, ih, groupsResolvers_cons, List.count_append]

/-- Claim C2: once a flush runs, every resolver callback registered
against its pending batch items is invoked exactly once with some string
(the translated value or the empty string) — counted per resolver id,
the delivered resolutions match the registered callbacks exactly, for an
arbitrary provider oracle covering thrown calls, non-success statuses and
malformed responses (all of which surface as result lists the oracle can
return, including the empty one). -/
theorem C2_every_resolver_once
    (provider : String → List String → List String) (now : Int)
    (st : BgState) (rid : Nat) :
    (((flushPendingRequests provider now st).2.1).map Prod.fst).count rid
      = (allResolvers st.pend).count rid := by
  simp only [flushPendingRequests]
  by_cases he : st.pend.isEmpty
  · have hnil : st.pend = [] := List.isEmpty_iff.mp he
    simp [he, hnil, allResolvers]
  · simp only [if_neg he]
    rw [flushGroups_res_count]
    rw [show groupByTarget st.pend = st.pend.foldl pendStep [] from rfl]
    rw [groupByTarget_count rid st.pend []]
    simp [groupsResolvers]
